import Mathlib

/-!
Verification of the ahrs repository: shallow embedding of the quaternion
utilities (src/ahrs/common/quaternion.py), the Madgwick and Mahony attitude
filters (src/ahrs/filters/madgwick.py, src/ahrs/filters/mahony.py) and the
date/coefficient handling of the World Magnetic Model (src/ahrs/utils/wmm.py).

Numeric code is embedded over the exact reals: `numpy` vectors of length 3
and 4 become the structures `V3` and `Q4`, `np.linalg.norm` becomes
`Real.sqrt` of the sum of squares, and elementwise division by a scalar is
embedded with the total division of `ℝ`.  Where the Python code divides by
zero at runtime (producing IEEE NaN), the embedding records the fact that the
denominator is zero rather than modelling NaN values.  The date arithmetic of
the WMM is embedded over `ℚ`, where it is fully computable.
-/

namespace Ahrs

/-- A raw 3-vector of reals, standing for a numpy array of shape (3,). -/
@[ext] structure V3 where
  x : ℝ
  y : ℝ
  z : ℝ

/-- A raw 4-vector of reals (w, x, y, z), standing for a numpy array of
shape (4,) holding a quaternion. -/
@[ext] structure Q4 where
  w : ℝ
  x : ℝ
  y : ℝ
  z : ℝ

/-- Euclidean norm of a 3-vector: `np.linalg.norm(v)`. -/
noncomputable def nv (v : V3) : ℝ := Real.sqrt (v.x ^ 2 + v.y ^ 2 + v.z ^ 2)

/-- Euclidean norm of a 4-vector: `np.linalg.norm(q)`. -/
noncomputable def nq (q : Q4) : ℝ := Real.sqrt (q.w ^ 2 + q.x ^ 2 + q.y ^ 2 + q.z ^ 2)

/-- Elementwise division of a 3-vector by a scalar: `v / c`. -/
noncomputable def vdiv (v : V3) (c : ℝ) : V3 := ⟨v.x / c, v.y / c, v.z / c⟩

/-- Elementwise division of a 4-vector by a scalar: `q / c`. -/
noncomputable def qdiv (q : Q4) (c : ℝ) : Q4 := ⟨q.w / c, q.x / c, q.y / c, q.z / c⟩

/-- Elementwise sum of 3-vectors. -/
noncomputable def vadd (u v : V3) : V3 := ⟨u.x + v.x, u.y + v.y, u.z + v.z⟩

/-- Scalar multiple of a 3-vector. -/
noncomputable def vsmul (c : ℝ) (v : V3) : V3 := ⟨c * v.x, c * v.y, c * v.z⟩

/-- Elementwise sum of 4-vectors. -/
noncomputable def qadd (p q : Q4) : Q4 := ⟨p.w + q.w, p.x + q.x, p.y + q.y, p.z + q.z⟩

/-- Elementwise difference of 4-vectors. -/
noncomputable def qsub (p q : Q4) : Q4 := ⟨p.w - q.w, p.x - q.x, p.y - q.y, p.z - q.z⟩

/-- Scalar multiple of a 4-vector. -/
noncomputable def qsmul (c : ℝ) (q : Q4) : Q4 := ⟨c * q.w, c * q.x, c * q.y, c * q.z⟩

/-- The 3-vector cross product, `np.cross(u, v)`. -/
noncomputable def cross (u v : V3) : V3 :=
  ⟨u.y * v.z - u.z * v.y, u.z * v.x - u.x * v.z, u.x * v.y - u.y * v.x⟩

/-- Normalize a 3-vector: `v /= np.linalg.norm(v)`. -/
noncomputable def vHat (v : V3) : V3 := vdiv v (nv v)

/-- Normalize a 4-vector: `q /= np.linalg.norm(q)`. -/
noncomputable def qHat (q : Q4) : Q4 := qdiv q (nq q)

/-- Modelled from the spec: `q_prod` from `ahrs.common.orientation` is
imported by both filters but `orientation.py` is not part of the repository
snapshot.  The spec (section 4.1) fixes the quaternion product as the
standard Hamilton product. -/
noncomputable def qProd (p q : Q4) : Q4 :=
  ⟨p.w * q.w - p.x * q.x - p.y * q.y - p.z * q.z,
   p.w * q.x + p.x * q.w + p.y * q.z - p.z * q.y,
   p.w * q.y - p.x * q.z + p.y * q.w + p.z * q.x,
   p.w * q.z + p.x * q.y - p.y * q.x + p.z * q.w⟩

/-- Modelled from the spec: `q_conj` from `ahrs.common.orientation` is
imported by both filters but `orientation.py` is not part of the repository
snapshot.  The spec (section 4.1) fixes conjugation as negating the vector
part of the quaternion. -/
noncomputable def qConjO (q : Q4) : Q4 := ⟨q.w, -q.x, -q.y, -q.z⟩

namespace Quaternion

/-- The normalization performed by `Quaternion.__init__`
(src/ahrs/common/quaternion.py line 22): `q /= np.linalg.norm(q)`, an
unconditional elementwise division by the norm. -/
noncomputable def normalize (q : Q4) : Q4 := qdiv q (nq q)

/-- `Quaternion.__init__` viewed through an error channel.  The constructor
body contains no `raise` and no zero-norm check: it always succeeds with the
normalized components, so the embedding never takes the `Except.error`
branch.  The error channel exists only so that the absence of a reported
domain error is expressible. -/
noncomputable def init (q : Q4) : Except Unit Q4 := Except.ok (normalize q)

/-- `Quaternion.conj` (src/ahrs/common/quaternion.py lines 31-34), 1-D case:
`self._q[1:] * np.array([-1.0, -1.0, -1.0])`.  The result is the elementwise
product of the 3-element vector part with (-1, -1, -1): a 3-element array,
embedded as a list. -/
noncomputable def conj (q : Q4) : List ℝ :=
  List.zipWith (fun p r => p * r) [q.x, q.y, q.z] [-1, -1, -1]

/-- `Quaternion.prod` (src/ahrs/common/quaternion.py lines 36-42), copied
term by term from the four rows of the `np.array` literal. -/
noncomputable def prod (p q : Q4) : Q4 :=
  ⟨p.w * q.w - p.x * q.x - p.y * q.y - p.z * q.z,
   p.w * q.x + p.x * q.w - p.y * q.z + p.z * q.y,
   p.w * q.y + p.x * q.z + p.y * q.w - p.z * q.x,
   p.w * q.z - p.x * q.y + p.y * q.x + p.z * q.w⟩

/-- The claimed product of C4, written from the words of the claim: the
standard Hamilton product of q1 and q2 in that order.  Kept separate from
`prod` so the two can be compared. -/
noncomputable def hamiltonClaim (p q : Q4) : Q4 :=
  ⟨p.w * q.w - p.x * q.x - p.y * q.y - p.z * q.z,
   p.w * q.x + p.x * q.w + p.y * q.z - p.z * q.y,
   p.w * q.y - p.x * q.z + p.y * q.w + p.z * q.x,
   p.w * q.z + p.x * q.y - p.y * q.x + p.z * q.w⟩

/-- `np.arctan2(y, x)`: the standard two-argument arctangent, with
`arctan2(0, 0) = 0` as in numpy. -/
noncomputable def atan2 (y x : ℝ) : ℝ :=
  if 0 < x then Real.arctan (y / x)
  else if x < 0 then
    (if 0 ≤ y then Real.arctan (y / x) + Real.pi else Real.arctan (y / x) - Real.pi)
  else
    (if 0 < y then Real.pi / 2 else if y < 0 then -(Real.pi / 2) else 0)

/-- The angle computed by `Quaternion.to_axang`
(src/ahrs/common/quaternion.py line 47):
`2.0 * np.arctan2(np.linalg.norm(q[1:]), q[0])`. -/
noncomputable def to_axang_angle (q : Q4) : ℝ := 2 * atan2 (nv ⟨q.x, q.y, q.z⟩) q.w

/-- `Quaternion.to_axang` (src/ahrs/common/quaternion.py lines 44-49).
The axis falls back to the zero vector exactly when the computed angle is
zero; otherwise the vector part is divided by its norm. -/
noncomputable def to_axang (q : Q4) : V3 × ℝ :=
  if to_axang_angle q = 0 then (⟨0, 0, 0⟩, to_axang_angle q)
  else (vdiv ⟨q.x, q.y, q.z⟩ (nv ⟨q.x, q.y, q.z⟩), to_axang_angle q)

end Quaternion

namespace Madgwick

/-- The 3-element objective function `f` of `Madgwick.updateIMU`
(src/ahrs/filters/madgwick.py lines 163-165), evaluated after the
accelerometer sample and the prior quaternion have been normalized as in
lines 158 and 160. -/
noncomputable def f_IMU (q : Q4) (a : V3) : V3 :=
  let qn := qHat q
  let av := vHat a
  ⟨2 * (qn.x * qn.z - qn.w * qn.y) - av.x,
   2 * (qn.w * qn.x + qn.y * qn.z) - av.y,
   2 * (0.5 - qn.x ^ 2 - qn.y ^ 2) - av.z⟩

/-- The gradient step `2.0 * J.T @ f` of `Madgwick.updateIMU`
(src/ahrs/filters/madgwick.py lines 166-169), before its normalization.
The rows of `J` are written as in the source and the transpose-product is
expanded column by column. -/
noncomputable def step_IMU (q : Q4) (a : V3) : Q4 :=
  let qn := qHat q
  let f := f_IMU q a
  ⟨2 * ((-qn.y) * f.x + qn.x * f.y + 0 * f.z),
   2 * (qn.z * f.x + qn.w * f.y + (-2 * qn.x) * f.z),
   2 * ((-qn.w) * f.x + qn.z * f.y + (-2 * qn.y) * f.z),
   2 * (qn.x * f.x + qn.y * f.y + 0 * f.z)⟩

/-- The quaternion integrated by `Madgwick.updateIMU` before its final
normalization (src/ahrs/filters/madgwick.py lines 170-174):
`q + (0.5 * q_prod(q, [0, g]) - beta * step / norm(step)) * Dt` with `q`
already normalized. -/
noncomputable def pre_IMU (beta Dt : ℝ) (q : Q4) (g a : V3) : Q4 :=
  let qn := qHat q
  let s := step_IMU q a
  let sn := qdiv s (nq s)
  let qDot := qsub (qsmul 0.5 (qProd qn ⟨0, g.x, g.y, g.z⟩)) (qsmul beta sn)
  qadd qn (qsmul Dt qDot)

/-- `Madgwick.updateIMU` (src/ahrs/filters/madgwick.py lines 131-176):
if the accelerometer norm is zero the prior quaternion is returned
unchanged, otherwise the integrated quaternion is normalized and returned. -/
noncomputable def updateIMU (beta Dt : ℝ) (q : Q4) (g a : V3) : Q4 :=
  if nv a = 0 then q
  else qdiv (pre_IMU beta Dt q g a) (nq (pre_IMU beta Dt q g a))

/-- The magnetic reference `b` of `Madgwick.updateMARG`
(src/ahrs/filters/madgwick.py lines 218-219): the pair (b[1], b[3]) where
`h = q_prod(q, q_prod([0, m], q_conj(q)))`, `b[1] = norm([h[1], h[2]])` and
`b[3] = h[3]`, with `m` and `q` normalized as in lines 213 and 215. -/
noncomputable def b_MARG (q : Q4) (m : V3) : ℝ × ℝ :=
  let qn := qHat q
  let mv := vHat m
  let h := qProd qn (qProd ⟨0, mv.x, mv.y, mv.z⟩ (qConjO qn))
  (Real.sqrt (h.x ^ 2 + h.y ^ 2), h.z)

/-- The gradient step `4.0 * J.T @ F` of `Madgwick.updateMARG`
(src/ahrs/filters/madgwick.py lines 221-233), before its normalization.
The six entries of `F` and the rows of `J` are written as in the source and
the transpose-product is expanded column by column. -/
noncomputable def step_MARG (q : Q4) (a m : V3) : Q4 :=
  let qn := qHat q
  let av := vHat a
  let mv := vHat m
  let b1 := (b_MARG q m).1
  let b3 := (b_MARG q m).2
  let F0 := (qn.x * qn.z - qn.w * qn.y) - 0.5 * av.x
  let F1 := (qn.w * qn.x + qn.y * qn.z) - 0.5 * av.y
  let F2 := (0.5 - qn.x ^ 2 - qn.y ^ 2) - 0.5 * av.z
  let F3 := b1 * (0.5 - qn.y ^ 2 - qn.z ^ 2) + b3 * (qn.x * qn.z - qn.w * qn.y) - 0.5 * mv.x
  let F4 := b1 * (qn.x * qn.y - qn.w * qn.z) + b3 * (qn.w * qn.x + qn.y * qn.z) - 0.5 * mv.y
  let F5 := b1 * (qn.w * qn.y + qn.x * qn.z) + b3 * (0.5 - qn.x ^ 2 - qn.y ^ 2) - 0.5 * mv.z
  ⟨4 * ((-qn.y) * F0 + qn.x * F1 + 0 * F2 + (-b3 * qn.y) * F3
      + (-b1 * qn.z + 2 * b3 * qn.x) * F4 + (b1 * qn.y) * F5),
   4 * (qn.z * F0 + qn.w * F1 + (-2 * qn.x) * F2 + (b3 * qn.z) * F3
      + (b1 * qn.y + b3 * qn.w) * F4 + (b1 * qn.z - 2 * b3 * qn.x) * F5),
   4 * ((-qn.w) * F0 + qn.z * F1 + (-2 * qn.y) * F2 + (-2 * b1 * qn.y - b3 * qn.w) * F3
      + (b1 * qn.x + b3 * qn.z) * F4 + (b1 * qn.w - 2 * b3 * qn.y) * F5),
   4 * (qn.x * F0 + qn.y * F1 + 0 * F2 + (-2 * b1 * qn.z + b3 * qn.x) * F3
      + (-b1 * qn.w + b3 * qn.y) * F4 + (b1 * qn.x) * F5)⟩

/-- The quaternion integrated by `Madgwick.updateMARG` before its final
normalization (src/ahrs/filters/madgwick.py lines 234-238). -/
noncomputable def pre_MARG (beta Dt : ℝ) (q : Q4) (g a m : V3) : Q4 :=
  let qn := qHat q
  let s := step_MARG q a m
  let sn := qdiv s (nq s)
  let qDot := qsub (qsmul 0.5 (qProd qn ⟨0, g.x, g.y, g.z⟩)) (qsmul beta sn)
  qadd qn (qsmul Dt qDot)

/-- `Madgwick.updateMARG` (src/ahrs/filters/madgwick.py lines 178-240):
a zero-norm accelerometer or magnetometer sample returns the prior
quaternion unchanged, otherwise the integrated quaternion is normalized. -/
noncomputable def updateMARG (beta Dt : ℝ) (q : Q4) (g a m : V3) : Q4 :=
  if nv a = 0 then q
  else if nv m = 0 then q
  else qdiv (pre_MARG beta Dt q g a m) (nq (pre_MARG beta Dt q g a m))

end Madgwick

namespace Mahony

/-- The estimated gravity direction `v` of the Mahony updates
(src/ahrs/filters/mahony.py lines 71-73), as a function of the quaternion
components the source reads at that point. -/
noncomputable def vGrav (q : Q4) : V3 :=
  ⟨2 * (q.x * q.z - q.w * q.y),
   2 * (q.w * q.x + q.y * q.z),
   q.w ^ 2 - q.x ^ 2 - q.y ^ 2 + q.z ^ 2⟩

/-- The orientation error `e = np.cross(a, v)` of `Mahony.updateIMU`
(src/ahrs/filters/mahony.py line 74); `a` is the normalized accelerometer
sample and `v` is computed from the normalized prior quaternion
(lines 66-73). -/
noncomputable def e_IMU (q : Q4) (a : V3) : V3 := cross (vHat a) (vGrav (qHat q))

/-- The integral error after `Mahony.updateIMU` line 75:
`eInt + e * samplePeriod` when `Ki > 0`, else the zero vector. -/
noncomputable def eInt_IMU (Ki sp : ℝ) (q : Q4) (a eInt : V3) : V3 :=
  if 0 < Ki then vadd eInt (vsmul sp (e_IMU q a)) else ⟨0, 0, 0⟩

/-- The quaternion integrated by `Mahony.updateIMU` before its final
normalization (src/ahrs/filters/mahony.py lines 77-81):
`q + 0.5 * q_prod(q, [0, g + Kp * e + Ki * eInt]) * samplePeriod` with `q`
already normalized. -/
noncomputable def pre_IMU (Kp Ki sp : ℝ) (q : Q4) (g a eInt : V3) : Q4 :=
  let qn := qHat q
  let e := e_IMU q a
  let gc := vadd g (vadd (vsmul Kp e) (vsmul Ki (eInt_IMU Ki sp q a eInt)))
  qadd qn (qsmul sp (qsmul 0.5 (qProd qn ⟨0, gc.x, gc.y, gc.z⟩)))

/-- `Mahony.updateIMU` (src/ahrs/filters/mahony.py lines 31-83), returning
the new quaternion together with the integral error state `self.eInt`.
A zero-norm accelerometer sample returns before line 75, leaving `eInt`
untouched. -/
noncomputable def updateIMU (Kp Ki sp : ℝ) (q : Q4) (g a eInt : V3) : Q4 × V3 :=
  if nv a = 0 then (q, eInt)
  else (qdiv (pre_IMU Kp Ki sp q g a eInt) (nq (pre_IMU Kp Ki sp q g a eInt)),
        eInt_IMU Ki sp q a eInt)

/-- The estimated magnetic flux direction `w` of `Mahony.updateMARG`
(src/ahrs/filters/mahony.py lines 131-139).  Unlike `updateIMU`, the MARG
update does not normalize the prior quaternion, so `w`, `v` and `h` all use
the raw components of `q`. -/
noncomputable def w_MARG (q : Q4) (m : V3) : V3 :=
  let mv := vHat m
  let h := qProd q (qProd ⟨0, mv.x, mv.y, mv.z⟩ (qConjO q))
  let b1 := Real.sqrt (h.x ^ 2 + h.y ^ 2)
  let b3 := h.z
  ⟨2 * b1 * (0.5 - q.y ^ 2 - q.z ^ 2) + 2 * b3 * (q.x * q.z - q.w * q.y),
   2 * b1 * (q.x * q.y - q.w * q.z) + 2 * b3 * (q.w * q.x + q.y * q.z),
   2 * b1 * (q.w * q.y + q.x * q.z) + 2 * b3 * (0.5 - q.x ^ 2 - q.y ^ 2)⟩

/-- The orientation error of `Mahony.updateMARG`
(src/ahrs/filters/mahony.py line 141): `np.cross(a, v) + np.cross(m, w)`. -/
noncomputable def e_MARG (q : Q4) (a m : V3) : V3 :=
  vadd (cross (vHat a) (vGrav q)) (cross (vHat m) (w_MARG q m))

/-- The integral error after `Mahony.updateMARG` line 142. -/
noncomputable def eInt_MARG (Ki sp : ℝ) (q : Q4) (a m eInt : V3) : V3 :=
  if 0 < Ki then vadd eInt (vsmul sp (e_MARG q a m)) else ⟨0, 0, 0⟩

/-- The quaternion integrated by `Mahony.updateMARG` before its final
normalization (src/ahrs/filters/mahony.py lines 144-148), using the raw
prior quaternion. -/
noncomputable def pre_MARG (Kp Ki sp : ℝ) (q : Q4) (g a m eInt : V3) : Q4 :=
  let e := e_MARG q a m
  let gc := vadd g (vadd (vsmul Kp e) (vsmul Ki (eInt_MARG Ki sp q a m eInt)))
  qadd q (qsmul sp (qsmul 0.5 (qProd q ⟨0, gc.x, gc.y, gc.z⟩)))

/-- `Mahony.updateMARG` (src/ahrs/filters/mahony.py lines 85-150), returning
the new quaternion together with the integral error state.  A zero-norm
accelerometer or magnetometer sample returns before line 142, leaving
`eInt` untouched. -/
noncomputable def updateMARG (Kp Ki sp : ℝ) (q : Q4) (g a m eInt : V3) : Q4 × V3 :=
  if nv a = 0 then (q, eInt)
  else if nv m = 0 then (q, eInt)
  else (qdiv (pre_MARG Kp Ki sp q g a m eInt) (nq (pre_MARG Kp Ki sp q g a m eInt)),
        eInt_MARG Ki sp q a m eInt)

end Mahony

namespace WMM

/-- The two coefficient files the model can select
(src/ahrs/utils/wmm.py line 392). -/
inductive CofFile
  | wmm2015
  | wmm2020
deriving DecidableEq

/-- The file selection of `WMM.set_date` line 392:
`./WMM2015/WMM.COF` when the decimal date is below 2020.0, else
`./WMM2020/WMM.COF`. -/
def wmm_filename (d : ℚ) : CofFile := if d < 2020 then CofFile.wmm2015 else CofFile.wmm2020

/-- The coefficient-set state of a `WMM` instance as far as reloading is
concerned: which COF file the loaded Gauss coefficients came from, and how
many times `load_coefficients` followed by `denormalize_coefficients` has
run (each `reset_coefficients` performs exactly one load and one
denormalization, src/ahrs/utils/wmm.py lines 262-274). -/
structure CoeffState where
  file : CofFile
  loads : Nat
deriving DecidableEq

/-- `WMM.reset_coefficients` (src/ahrs/utils/wmm.py lines 262-274): sets the
date (hence the COF filename), reloads the coefficient matrices from the
file and denormalizes them again. -/
def reset_coefficients (s : CoeffState) (d : ℚ) : CoeffState :=
  ⟨wmm_filename d, s.loads + 1⟩

/-- The coefficient-state effect of `WMM.magnetic_field`
(src/ahrs/utils/wmm.py lines 440-441): `reset_coefficients(date)` runs
whenever the date argument is not None; the remainder of the method only
reads the coefficient matrices `c`, `cd` and `k`. -/
def magnetic_field_step (s : CoeffState) (date : Option ℚ) : CoeffState :=
  match date with
  | none => s
  | some d => reset_coefficients s d

/-- Python round, ties to even, on an exact rational. -/
def pyRound (x : ℚ) : ℤ :=
  if Int.fract x < 1 / 2 then ⌊x⌋
  else if 1 / 2 < Int.fract x then ⌊x⌋ + 1
  else if ⌊x⌋ % 2 = 0 then ⌊x⌋ else ⌊x⌋ + 1

/-- Modelled from the Python standard library: the proleptic Gregorian leap
year rule used by `datetime.date`. -/
def isLeapYear (y : ℤ) : Bool := (y % 4 == 0 && y % 100 != 0) || (y % 400 == 0)

/-- Number of days of a calendar year. -/
def daysInYear (y : ℤ) : ℤ := if isLeapYear y then 366 else 365

/-- Modelled from the Python standard library:
`datetime.date(y, 1, 1).toordinal()`, the proleptic Gregorian ordinal of
January 1st of year `y`. -/
def toOrdinalJan1 (y : ℤ) : ℤ :=
  1 + 365 * (y - 1) + (y - 1) / 4 - (y - 1) / 100 + (y - 1) / 400

/-- The calendar year of `self.date` after `WMM.set_date` is called with a
decimal year (src/ahrs/utils/wmm.py lines 384-386):
`datetime.date.fromordinal(round(date(int(d), 1, 1).toordinal() + (d - int(d)) * 365))`.
The rounded ordinal lies between January 1st of year `⌊d⌋` and at most 365
days later, so the resulting calendar year is `⌊d⌋` when the day offset is
below the length of that year and `⌊d⌋ + 1` otherwise. -/
def set_date_year (d : ℚ) : ℤ :=
  let y := ⌊d⌋
  let ord := pyRound ((toOrdinalJan1 y : ℚ) + (d - (y : ℚ)) * 365)
  if ord - toOrdinalJan1 y < daysInYear y then y else y + 1

/-- Whether `WMM.set_date` raises `ValueError` for a decimal year input
(src/ahrs/utils/wmm.py lines 390-391): `self.date.year < 2015`. -/
def set_date_raises (d : ℚ) : Bool := decide (set_date_year d < 2015)

end WMM

lemma nq_eq_zero_iff (q : Q4) : nq q = 0 ↔ q.w = 0 ∧ q.x = 0 ∧ q.y = 0 ∧ q.z = 0 := by
  unfold nq
  rw [Real.sqrt_eq_zero (by positivity)]
  constructor
  · intro hS
    have hw : q.w ^ 2 = 0 := le_antisymm (by nlinarith [sq_nonneg q.x, sq_nonneg q.y, sq_nonneg q.z]) (sq_nonneg _)
    have hx : q.x ^ 2 = 0 := le_antisymm (by nlinarith [sq_nonneg q.w, sq_nonneg q.y, sq_nonneg q.z]) (sq_nonneg _)
    have hy : q.y ^ 2 = 0 := le_antisymm (by nlinarith [sq_nonneg q.w, sq_nonneg q.x, sq_nonneg q.z]) (sq_nonneg _)
    have hz : q.z ^ 2 = 0 := le_antisymm (by nlinarith [sq_nonneg q.w, sq_nonneg q.x, sq_nonneg q.y]) (sq_nonneg _)
    exact ⟨(pow_eq_zero_iff two_ne_zero).mp hw, (pow_eq_zero_iff two_ne_zero).mp hx,
      (pow_eq_zero_iff two_ne_zero).mp hy, (pow_eq_zero_iff two_ne_zero).mp hz⟩
  · rintro ⟨h1, h2, h3, h4⟩
    rw [h1, h2, h3, h4]
    ring

lemma nv_eq_zero_iff (v : V3) : nv v = 0 ↔ v.x = 0 ∧ v.y = 0 ∧ v.z = 0 := by
  unfold nv
  rw [Real.sqrt_eq_zero (by positivity)]
  constructor
  · intro hS
    have hx : v.x ^ 2 = 0 := le_antisymm (by nlinarith [sq_nonneg v.y, sq_nonneg v.z]) (sq_nonneg _)
    have hy : v.y ^ 2 = 0 := le_antisymm (by nlinarith [sq_nonneg v.x, sq_nonneg v.z]) (sq_nonneg _)
    have hz : v.z ^ 2 = 0 := le_antisymm (by nlinarith [sq_nonneg v.x, sq_nonneg v.y]) (sq_nonneg _)
    exact ⟨(pow_eq_zero_iff two_ne_zero).mp hx, (pow_eq_zero_iff two_ne_zero).mp hy,
      (pow_eq_zero_iff two_ne_zero).mp hz⟩
  · rintro ⟨h1, h2, h3⟩
    rw [h1, h2, h3]
    ring

lemma nv_triple_zero : nv ⟨0, 0, 0⟩ = 0 := by
  rw [nv_eq_zero_iff]
  norm_num

lemma nq_qdiv_self (q : Q4) (h : nq q ≠ 0) : nq (qdiv q (nq q)) = 1 := by
  have hS : (0 : ℝ) ≤ q.w ^ 2 + q.x ^ 2 + q.y ^ 2 + q.z ^ 2 := by positivity
  have hc : nq q ^ 2 = q.w ^ 2 + q.x ^ 2 + q.y ^ 2 + q.z ^ 2 := Real.sq_sqrt hS
  have hS0 : q.w ^ 2 + q.x ^ 2 + q.y ^ 2 + q.z ^ 2 ≠ 0 := by
    intro h0
    exact h (by rw [nq, h0, Real.sqrt_zero])
  have key : (q.w / nq q) ^ 2 + (q.x / nq q) ^ 2 + (q.y / nq q) ^ 2 + (q.z / nq q) ^ 2 = 1 := by
    rw [div_pow, div_pow, div_pow, div_pow, div_add_div_same, div_add_div_same,
      div_add_div_same, hc]
    exact div_self hS0
  show Real.sqrt ((q.w / nq q) ^ 2 + (q.x / nq q) ^ 2 + (q.y / nq q) ^ 2 + (q.z / nq q) ^ 2) = 1
  rw [key, Real.sqrt_one]

/-- C3: for every prior quaternion and gyroscope sample, the IMU updates of
both filters return the prior quaternion exactly unchanged when the
accelerometer sample has norm zero; for Mahony the integral error state is
also left untouched, so no correction and no gyro integration happens. -/
theorem c3_zero_acc_returns_prev :
    (∀ (beta Dt : ℝ) (q : Q4) (g a : V3), nv a = 0 → Madgwick.updateIMU beta Dt q g a = q) ∧
    (∀ (Kp Ki sp : ℝ) (q : Q4) (g a eInt : V3), nv a = 0 →
      Mahony.updateIMU Kp Ki sp q g a eInt = (q, eInt)) := by
  constructor
  · intro beta Dt q g a ha
    unfold Madgwick.updateIMU
    rw [if_pos ha]
  · intro Kp Ki sp q g a eInt ha
    unfold Mahony.updateIMU
    rw [if_pos ha]

/-- Witness for C3 at a concrete non-unit prior quaternion, nonzero gyro and
nonzero integral state: both updates return their inputs exactly. -/
theorem c3_zero_acc_returns_prev_witness :
    Madgwick.updateIMU 1 1 ⟨2, 0, 0, 0⟩ ⟨5, 6, 7⟩ ⟨0, 0, 0⟩ = ⟨2, 0, 0, 0⟩ ∧
    Mahony.updateIMU 1 1 1 ⟨2, 0, 0, 0⟩ ⟨5, 6, 7⟩ ⟨0, 0, 0⟩ ⟨4, 5, 6⟩ = (⟨2, 0, 0, 0⟩, ⟨4, 5, 6⟩) :=
  ⟨c3_zero_acc_returns_prev.1 1 1 _ _ _ nv_triple_zero,
   c3_zero_acc_returns_prev.2 1 1 1 _ _ _ _ nv_triple_zero⟩

/-- C2 counterexample: a Mahony IMU update called with `Ki = 0` (hence
`Ki ≤ 0`) and a zero-norm accelerometer sample returns before the integral
reset line, so `eInt` keeps its prior value (1, 2, 3) instead of being reset
to the zero vector. -/
theorem c2_counterexample :
    ((0 : ℝ) ≤ 0) ∧
    (Mahony.updateIMU 1 0 1 ⟨1, 0, 0, 0⟩ ⟨0, 0, 0⟩ ⟨0, 0, 0⟩ ⟨1, 2, 3⟩).2 = ⟨1, 2, 3⟩ ∧
    (⟨1, 2, 3⟩ : V3) ≠ ⟨0, 0, 0⟩ := by
  refine ⟨le_refl 0, ?_, ?_⟩
  · unfold Mahony.updateIMU
    rw [if_pos nv_triple_zero]
  · norm_num [V3.mk.injEq]

/-- C2 amended: on any Mahony update call that passes the zero-norm sensor
guards, a non-positive integral gain forces the integral error accumulator
to the zero vector, regardless of its prior value; calls that short-circuit
on a zero-norm sample leave the accumulator unchanged instead. -/
theorem c2_eInt_reset_amended :
    ∀ (Kp Ki sp : ℝ) (q : Q4) (g a m eInt : V3), Ki ≤ 0 →
      (nv a ≠ 0 → (Mahony.updateIMU Kp Ki sp q g a eInt).2 = ⟨0, 0, 0⟩) ∧
      (nv a ≠ 0 → nv m ≠ 0 → (Mahony.updateMARG Kp Ki sp q g a m eInt).2 = ⟨0, 0, 0⟩) := by
  intro Kp Ki sp q g a m eInt hKi
  have hKi2 : ¬ (0 < Ki) := not_lt.mpr hKi
  constructor
  · intro ha
    unfold Mahony.updateIMU
    rw [if_neg ha]
    unfold Mahony.eInt_IMU
    rw [if_neg hKi2]
  · intro ha hm
    unfold Mahony.updateMARG
    rw [if_neg ha, if_neg hm]
    unfold Mahony.eInt_MARG
    rw [if_neg hKi2]

/-- Witness for C2 amended at concrete inputs passing the sensor guards,
with `Ki = 0` and prior integral state (7, 8, 9). -/
theorem c2_eInt_reset_amended_witness :
    (Mahony.updateIMU 1 0 1 ⟨1, 0, 0, 0⟩ ⟨0, 0, 0⟩ ⟨1, 0, 0⟩ ⟨7, 8, 9⟩).2 = ⟨0, 0, 0⟩ ∧
    (Mahony.updateMARG 1 0 1 ⟨1, 0, 0, 0⟩ ⟨0, 0, 0⟩ ⟨1, 0, 0⟩ ⟨1, 0, 0⟩ ⟨7, 8, 9⟩).2 = ⟨0, 0, 0⟩ := by
  have ha : nv ⟨1, 0, 0⟩ ≠ 0 := by
    rw [Ne, nv_eq_zero_iff]
    norm_num
  have h := c2_eInt_reset_amended 1 0 1 ⟨1, 0, 0, 0⟩ ⟨0, 0, 0⟩ ⟨1, 0, 0⟩ ⟨1, 0, 0⟩ ⟨7, 8, 9⟩ le_rfl
  exact ⟨h.1 ha, h.2 ha ha⟩

/-- C4 counterexample: on the unit quaternions i = (0,1,0,0) and
j = (0,0,1,0), `Quaternion.prod` returns (0,0,0,-1), the negative of the
value (0,0,0,1) required by the claimed Hamilton product formula. -/
theorem c4_counterexample :
    Quaternion.prod ⟨0, 1, 0, 0⟩ ⟨0, 0, 1, 0⟩ = ⟨0, 0, 0, -1⟩ ∧
    Quaternion.hamiltonClaim ⟨0, 1, 0, 0⟩ ⟨0, 0, 1, 0⟩ = ⟨0, 0, 0, 1⟩ ∧
    Quaternion.prod ⟨0, 1, 0, 0⟩ ⟨0, 0, 1, 0⟩ ≠ Quaternion.hamiltonClaim ⟨0, 1, 0, 0⟩ ⟨0, 0, 1, 0⟩ := by
  refine ⟨?_, ?_, ?_⟩ <;> norm_num [Quaternion.prod, Quaternion.hamiltonClaim, Q4.mk.injEq]

/-- C4 amended: `Quaternion.prod` is a pure function returning the Hamilton
product with its operands in reversed order, i.e. `prod(q1, q2) = q2 ⊗ q1`
(equivalently, the claimed formula with the three cross-product terms
negated). -/
theorem c4_prod_amended : ∀ p q : Q4, Quaternion.prod p q = Quaternion.hamiltonClaim q p := by
  intro p q
  unfold Quaternion.prod Quaternion.hamiltonClaim
  ext <;> dsimp only <;> ring

/-- C9 counterexample: `Quaternion.conj` applied to (1, 2, 3, 4) returns the
3-element array (-2, -3, -4): the scalar part is dropped, so the result is
not the 4-component quaternion (1, -2, -3, -4) required by the claim. -/
theorem c9_counterexample :
    Quaternion.conj ⟨1, 2, 3, 4⟩ = [(-2 : ℝ), -3, -4] ∧
    Quaternion.conj ⟨1, 2, 3, 4⟩ ≠ [(1 : ℝ), -2, -3, -4] := by
  constructor
  · norm_num [Quaternion.conj]
  · norm_num [Quaternion.conj]

/-- C9 amended: `Quaternion.conj` returns only the negated vector part
(-x, -y, -z) as a 3-element array; the scalar component is not part of the
returned value. -/
theorem c9_conj_amended : ∀ q : Q4, Quaternion.conj q = [-q.x, -q.y, -q.z] := by
  intro q
  simp [Quaternion.conj]

/-- C6 counterexample: two consecutive evaluations at dates 2020.1 and
2020.2, both inside the 2020 epoch (same COF file), each perform a reload
and re-denormalization: the load counter increments on the second call even
though no epoch boundary was crossed, so the coefficient matrices do not
stay untouched within an epoch. -/
theorem c6_counterexample :
    WMM.wmm_filename (20201 / 10) = WMM.wmm_filename (20202 / 10) ∧
    WMM.magnetic_field_step ⟨WMM.CofFile.wmm2020, 0⟩ (some (20201 / 10)) = ⟨WMM.CofFile.wmm2020, 1⟩ ∧
    WMM.magnetic_field_step ⟨WMM.CofFile.wmm2020, 1⟩ (some (20202 / 10)) = ⟨WMM.CofFile.wmm2020, 2⟩ := by
  have h1 : ¬ ((20201 / 10 : ℚ) < 2020) := by norm_num
  have h2 : ¬ ((20202 / 10 : ℚ) < 2020) := by norm_num
  refine ⟨?_, ?_, ?_⟩ <;>
    simp [WMM.magnetic_field_step, WMM.reset_coefficients, WMM.wmm_filename, h1, h2]

/-- C6 amended: `magnetic_field` reloads and re-denormalizes the Gauss
coefficient set on every evaluation whose date argument is not None,
regardless of whether the epoch changed; only a call with date None leaves
the coefficient state untouched.  The selected file always matches the
epoch of the requested date. -/
theorem c6_reload_amended :
    ∀ (s : WMM.CoeffState) (d : ℚ),
      WMM.magnetic_field_step s none = s ∧
      (WMM.magnetic_field_step s (some d)).loads = s.loads + 1 ∧
      (WMM.magnetic_field_step s (some d)).file = WMM.wmm_filename d := by
  intro s d
  exact ⟨rfl, rfl, rfl⟩

/-- C7 counterexample: constructing a quaternion from the zero 4-vector
(norm exactly zero) does not report any domain error: the constructor
unconditionally divides by the norm and returns a value, and that value does
not even have unit norm, so an undefined result is produced instead of the
claimed error. -/
theorem c7_counterexample :
    nq ⟨0, 0, 0, 0⟩ = 0 ∧
    Quaternion.init ⟨0, 0, 0, 0⟩ = Except.ok (Quaternion.normalize ⟨0, 0, 0, 0⟩) ∧
    nq (Quaternion.normalize ⟨0, 0, 0, 0⟩) ≠ 1 := by
  have h0 : nq ⟨0, 0, 0, 0⟩ = 0 := by
    rw [nq_eq_zero_iff]
    norm_num
  have hn : Quaternion.normalize ⟨0, 0, 0, 0⟩ = ⟨0, 0, 0, 0⟩ := by
    unfold Quaternion.normalize qdiv
    ext <;> simp
  refine ⟨h0, rfl, ?_⟩
  rw [hn, h0]
  norm_num

/-- C7 amended: the constructor never reports an error; it always returns
the input divided elementwise by its norm.  For every input of nonzero norm
this result has unit norm; for the zero quaternion the division is zero by
zero (NaN at runtime) and no domain error is raised. -/
theorem c7_normalize_amended :
    ∀ q : Q4, Quaternion.init q = Except.ok (qdiv q (nq q)) ∧
      (nq q ≠ 0 → nq (Quaternion.normalize q) = 1) := by
  intro q
  exact ⟨rfl, fun h => nq_qdiv_self q h⟩

/-- Witness for C7 amended at the quaternion (3, 4, 0, 0) of norm 5. -/
theorem c7_normalize_amended_witness :
    Quaternion.init ⟨3, 4, 0, 0⟩ = Except.ok (qdiv ⟨3, 4, 0, 0⟩ (nq ⟨3, 4, 0, 0⟩)) ∧
    nq (Quaternion.normalize ⟨3, 4, 0, 0⟩) = 1 := by
  have h5 : nq ⟨3, 4, 0, 0⟩ ≠ 0 := by
    rw [Ne, nq_eq_zero_iff]
    norm_num
  exact ⟨(c7_normalize_amended ⟨3, 4, 0, 0⟩).1, (c7_normalize_amended ⟨3, 4, 0, 0⟩).2 h5⟩

/-- C1: every update operation of both filters returns a quaternion of norm
exactly one (hence within the 1e-9 relative tolerance), for every prior
quaternion and sensor sample that is non-degenerate: nonzero prior
quaternion, nonzero accelerometer (and for MARG magnetometer) norm, nonzero
gradient-descent step (Madgwick), and nonzero integrated quaternion before
the final normalization.  At any degenerate input the runtime instead
divides by zero. -/
theorem c1_unit_norm_after_update :
    (∀ (beta Dt : ℝ) (q : Q4) (g a : V3),
      nq q ≠ 0 → nv a ≠ 0 → nq (Madgwick.step_IMU q a) ≠ 0 →
      nq (Madgwick.pre_IMU beta Dt q g a) ≠ 0 →
      nq (Madgwick.updateIMU beta Dt q g a) = 1) ∧
    (∀ (beta Dt : ℝ) (q : Q4) (g a m : V3),
      nq q ≠ 0 → nv a ≠ 0 → nv m ≠ 0 → nq (Madgwick.step_MARG q a m) ≠ 0 →
      nq (Madgwick.pre_MARG beta Dt q g a m) ≠ 0 →
      nq (Madgwick.updateMARG beta Dt q g a m) = 1) ∧
    (∀ (Kp Ki sp : ℝ) (q : Q4) (g a eInt : V3),
      nq q ≠ 0 → nv a ≠ 0 → nq (Mahony.pre_IMU Kp Ki sp q g a eInt) ≠ 0 →
      nq (Mahony.updateIMU Kp Ki sp q g a eInt).1 = 1) ∧
    (∀ (Kp Ki sp : ℝ) (q : Q4) (g a m eInt : V3),
      nv a ≠ 0 → nv m ≠ 0 → nq (Mahony.pre_MARG Kp Ki sp q g a m eInt) ≠ 0 →
      nq (Mahony.updateMARG Kp Ki sp q g a m eInt).1 = 1) := by
  refine ⟨?_, ?_, ?_, ?_⟩
  · intro beta Dt q g a _ ha _ hpre
    unfold Madgwick.updateIMU
    rw [if_neg ha]
    exact nq_qdiv_self _ hpre
  · intro beta Dt q g a m _ ha hm _ hpre
    unfold Madgwick.updateMARG
    rw [if_neg ha, if_neg hm]
    exact nq_qdiv_self _ hpre
  · intro Kp Ki sp q g a eInt _ ha hpre
    unfold Mahony.updateIMU
    rw [if_neg ha]
    exact nq_qdiv_self _ hpre
  · intro Kp Ki sp q g a m eInt ha hm hpre
    unfold Mahony.updateMARG
    rw [if_neg ha, if_neg hm]
    exact nq_qdiv_self _ hpre

/-- Witness for C1 at beta = Dt = Kp = samplePeriod = 1, Ki = 0, prior
quaternion (1,0,0,0), zero gyro sample, accelerometer and magnetometer
samples (1,0,0): all non-degeneracy hypotheses hold and all four updates
return a quaternion of norm one. -/
theorem c1_unit_norm_after_update_witness :
    nq (Madgwick.updateIMU 1 1 ⟨1, 0, 0, 0⟩ ⟨0, 0, 0⟩ ⟨1, 0, 0⟩) = 1 ∧
    nq (Madgwick.updateMARG 1 1 ⟨1, 0, 0, 0⟩ ⟨0, 0, 0⟩ ⟨1, 0, 0⟩ ⟨1, 0, 0⟩) = 1 ∧
    nq (Mahony.updateIMU 1 0 1 ⟨1, 0, 0, 0⟩ ⟨0, 0, 0⟩ ⟨1, 0, 0⟩ ⟨0, 0, 0⟩).1 = 1 ∧
    nq (Mahony.updateMARG 1 0 1 ⟨1, 0, 0, 0⟩ ⟨0, 0, 0⟩ ⟨1, 0, 0⟩ ⟨1, 0, 0⟩ ⟨0, 0, 0⟩).1 = 1 := by
  have hnq1 : nq ⟨1, 0, 0, 0⟩ = 1 := by
    show Real.sqrt ((1 : ℝ) ^ 2 + 0 ^ 2 + 0 ^ 2 + 0 ^ 2) = 1
    norm_num
  have hq0 : nq (⟨1, 0, 0, 0⟩ : Q4) ≠ 0 := by
    rw [hnq1]
    norm_num
  have hnv1 : nv ⟨1, 0, 0⟩ = 1 := by
    show Real.sqrt ((1 : ℝ) ^ 2 + 0 ^ 2 + 0 ^ 2) = 1
    norm_num
  have ha0 : nv (⟨1, 0, 0⟩ : V3) ≠ 0 := by
    rw [hnv1]
    norm_num
  have hq : qHat ⟨1, 0, 0, 0⟩ = ⟨1, 0, 0, 0⟩ := by
    unfold qHat
    rw [hnq1]
    unfold qdiv
    norm_num
  have hA : vHat ⟨1, 0, 0⟩ = ⟨1, 0, 0⟩ := by
    unfold vHat
    rw [hnv1]
    unfold vdiv
    norm_num
  have hF : Madgwick.f_IMU ⟨1, 0, 0, 0⟩ ⟨1, 0, 0⟩ = ⟨-1, 0, 1⟩ := by
    simp only [Madgwick.f_IMU, hq, hA]
    norm_num [V3.mk.injEq]
  have hStep : Madgwick.step_IMU ⟨1, 0, 0, 0⟩ ⟨1, 0, 0⟩ = ⟨0, 0, 2, 0⟩ := by
    simp only [Madgwick.step_IMU, hq, hF]
    norm_num [Q4.mk.injEq]
  have hStep0 : nq (Madgwick.step_IMU ⟨1, 0, 0, 0⟩ ⟨1, 0, 0⟩) ≠ 0 := by
    rw [hStep, Ne, nq_eq_zero_iff]
    norm_num
  have hnq2 : nq ⟨0, 0, 2, 0⟩ = 2 := by
    show Real.sqrt ((0 : ℝ) ^ 2 + 0 ^ 2 + 2 ^ 2 + 0 ^ 2) = 2
    rw [show (0 : ℝ) ^ 2 + 0 ^ 2 + 2 ^ 2 + 0 ^ 2 = 2 ^ 2 by norm_num]
    exact Real.sqrt_sq (by norm_num)
  have hsn : qdiv ⟨0, 0, 2, 0⟩ (nq ⟨0, 0, 2, 0⟩) = ⟨0, 0, 1, 0⟩ := by
    rw [hnq2]
    unfold qdiv
    norm_num
  have hprodz : qProd ⟨1, 0, 0, 0⟩ ⟨0, 0, 0, 0⟩ = ⟨0, 0, 0, 0⟩ := by
    unfold qProd
    norm_num
  have hpre1 : Madgwick.pre_IMU 1 1 ⟨1, 0, 0, 0⟩ ⟨0, 0, 0⟩ ⟨1, 0, 0⟩ = ⟨1, 0, -1, 0⟩ := by
    simp only [Madgwick.pre_IMU, hq, hStep, hsn]
    unfold qsub qsmul qadd
    simp only [hprodz]
    norm_num [Q4.mk.injEq]
  have hpre10 : nq (Madgwick.pre_IMU 1 1 ⟨1, 0, 0, 0⟩ ⟨0, 0, 0⟩ ⟨1, 0, 0⟩) ≠ 0 := by
    rw [hpre1, Ne, nq_eq_zero_iff]
    norm_num
  have hconj : qConjO ⟨1, 0, 0, 0⟩ = ⟨1, 0, 0, 0⟩ := by
    unfold qConjO
    norm_num
  have hprodm : qProd ⟨0, 1, 0, 0⟩ ⟨1, 0, 0, 0⟩ = ⟨0, 1, 0, 0⟩ := by
    unfold qProd
    norm_num
  have hprodm2 : qProd ⟨1, 0, 0, 0⟩ ⟨0, 1, 0, 0⟩ = ⟨0, 1, 0, 0⟩ := by
    unfold qProd
    norm_num
  have hb : Madgwick.b_MARG ⟨1, 0, 0, 0⟩ ⟨1, 0, 0⟩ = (1, 0) := by
    simp only [Madgwick.b_MARG, hq, hA, hconj, hprodm, hprodm2]
    norm_num
  have hStepM : Madgwick.step_MARG ⟨1, 0, 0, 0⟩ ⟨1, 0, 0⟩ ⟨1, 0, 0⟩ = ⟨0, 0, 2, 0⟩ := by
    simp only [Madgwick.step_MARG, hq, hA, hb]
    norm_num [Q4.mk.injEq]
  have hStepM0 : nq (Madgwick.step_MARG ⟨1, 0, 0, 0⟩ ⟨1, 0, 0⟩ ⟨1, 0, 0⟩) ≠ 0 := by
    rw [hStepM, Ne, nq_eq_zero_iff]
    norm_num
  have hpreM : Madgwick.pre_MARG 1 1 ⟨1, 0, 0, 0⟩ ⟨0, 0, 0⟩ ⟨1, 0, 0⟩ ⟨1, 0, 0⟩ = ⟨1, 0, -1, 0⟩ := by
    simp only [Madgwick.pre_MARG, hq, hStepM, hsn]
    unfold qsub qsmul qadd
    simp only [hprodz]
    norm_num [Q4.mk.injEq]
  have hpreM0 : nq (Madgwick.pre_MARG 1 1 ⟨1, 0, 0, 0⟩ ⟨0, 0, 0⟩ ⟨1, 0, 0⟩ ⟨1, 0, 0⟩) ≠ 0 := by
    rw [hpreM, Ne, nq_eq_zero_iff]
    norm_num
  have hvg : Mahony.vGrav ⟨1, 0, 0, 0⟩ = ⟨0, 0, 1⟩ := by
    unfold Mahony.vGrav
    norm_num [V3.mk.injEq]
  have he : Mahony.e_IMU ⟨1, 0, 0, 0⟩ ⟨1, 0, 0⟩ = ⟨0, -1, 0⟩ := by
    simp only [Mahony.e_IMU, hq, hA, hvg]
    unfold cross
    norm_num [V3.mk.injEq]
  have heInt : Mahony.eInt_IMU 0 1 ⟨1, 0, 0, 0⟩ ⟨1, 0, 0⟩ ⟨0, 0, 0⟩ = ⟨0, 0, 0⟩ := by
    unfold Mahony.eInt_IMU
    rw [if_neg]
    norm_num
  have hprodm3 : qProd ⟨1, 0, 0, 0⟩ ⟨0, 0, -1, 0⟩ = ⟨0, 0, -1, 0⟩ := by
    unfold qProd
    norm_num
  have hpreMI : Mahony.pre_IMU 1 0 1 ⟨1, 0, 0, 0⟩ ⟨0, 0, 0⟩ ⟨1, 0, 0⟩ ⟨0, 0, 0⟩ = ⟨1, 0, -(1 / 2), 0⟩ := by
    simp only [Mahony.pre_IMU, hq, he, heInt]
    unfold vadd vsmul qadd qsmul
    norm_num [hprodm3, Q4.mk.injEq]
  have hpreMI0 : nq (Mahony.pre_IMU 1 0 1 ⟨1, 0, 0, 0⟩ ⟨0, 0, 0⟩ ⟨1, 0, 0⟩ ⟨0, 0, 0⟩) ≠ 0 := by
    rw [hpreMI, Ne, nq_eq_zero_iff]
    norm_num
  have hw : Mahony.w_MARG ⟨1, 0, 0, 0⟩ ⟨1, 0, 0⟩ = ⟨1, 0, 0⟩ := by
    simp only [Mahony.w_MARG, hA, hconj, hprodm, hprodm2]
    norm_num [V3.mk.injEq]
  have he2 : Mahony.e_MARG ⟨1, 0, 0, 0⟩ ⟨1, 0, 0⟩ ⟨1, 0, 0⟩ = ⟨0, -1, 0⟩ := by
    simp only [Mahony.e_MARG, hq, hA, hvg, hw]
    unfold cross vadd
    norm_num [V3.mk.injEq]
  have heInt2 : Mahony.eInt_MARG 0 1 ⟨1, 0, 0, 0⟩ ⟨1, 0, 0⟩ ⟨1, 0, 0⟩ ⟨0, 0, 0⟩ = ⟨0, 0, 0⟩ := by
    unfold Mahony.eInt_MARG
    rw [if_neg]
    norm_num
  have hpreMM : Mahony.pre_MARG 1 0 1 ⟨1, 0, 0, 0⟩ ⟨0, 0, 0⟩ ⟨1, 0, 0⟩ ⟨1, 0, 0⟩ ⟨0, 0, 0⟩ = ⟨1, 0, -(1 / 2), 0⟩ := by
    simp only [Mahony.pre_MARG, he2, heInt2]
    unfold vadd vsmul qadd qsmul
    norm_num [hprodm3, Q4.mk.injEq]
  have hpreMM0 : nq (Mahony.pre_MARG 1 0 1 ⟨1, 0, 0, 0⟩ ⟨0, 0, 0⟩ ⟨1, 0, 0⟩ ⟨1, 0, 0⟩ ⟨0, 0, 0⟩) ≠ 0 := by
    rw [hpreMM, Ne, nq_eq_zero_iff]
    norm_num
  exact ⟨c1_unit_norm_after_update.1 1 1 _ _ _ hq0 ha0 hStep0 hpre10,
    c1_unit_norm_after_update.2.1 1 1 _ _ _ _ hq0 ha0 ha0 hStepM0 hpreM0,
    c1_unit_norm_after_update.2.2.1 1 0 1 _ _ _ _ hq0 ha0 hpreMI0,
    c1_unit_norm_after_update.2.2.2 1 0 1 _ _ _ _ _ ha0 ha0 hpreMM0⟩

/-- C5: at the exact input of the claim (prior quaternion (1,0,0,0), zero
gyro, accelerometer (0,0,1) equal to the gravity direction predicted by the
prior quaternion) the objective function is exactly zero, so the
unnormalized gradient step is the zero 4-vector and its norm — the
denominator of the step normalization in line 170 of madgwick.py — is zero.
The zero-accelerometer guard does not fire (the accelerometer norm is one),
so the runtime divides zero by zero and the update returns NaN components
instead of the prior quaternion. -/
theorem c5_step_denominator_zero :
    nv ⟨(0 : ℝ), 0, 1⟩ ≠ 0 ∧
    Madgwick.f_IMU ⟨1, 0, 0, 0⟩ ⟨0, 0, 1⟩ = ⟨0, 0, 0⟩ ∧
    Madgwick.step_IMU ⟨1, 0, 0, 0⟩ ⟨0, 0, 1⟩ = ⟨0, 0, 0, 0⟩ ∧
    nq (Madgwick.step_IMU ⟨1, 0, 0, 0⟩ ⟨0, 0, 1⟩) = 0 := by
  have hnv : nv ⟨(0 : ℝ), 0, 1⟩ = 1 := by
    show Real.sqrt ((0 : ℝ) ^ 2 + 0 ^ 2 + 1 ^ 2) = 1
    norm_num
  have hnq1 : nq ⟨1, 0, 0, 0⟩ = 1 := by
    show Real.sqrt ((1 : ℝ) ^ 2 + 0 ^ 2 + 0 ^ 2 + 0 ^ 2) = 1
    norm_num
  have hq : qHat ⟨1, 0, 0, 0⟩ = ⟨1, 0, 0, 0⟩ := by
    unfold qHat
    rw [hnq1]
    unfold qdiv
    norm_num
  have hA : vHat ⟨(0 : ℝ), 0, 1⟩ = ⟨0, 0, 1⟩ := by
    unfold vHat
    rw [hnv]
    unfold vdiv
    norm_num
  have hF : Madgwick.f_IMU ⟨1, 0, 0, 0⟩ ⟨0, 0, 1⟩ = ⟨0, 0, 0⟩ := by
    simp only [Madgwick.f_IMU, hq, hA]
    norm_num [V3.mk.injEq]
  have hStep : Madgwick.step_IMU ⟨1, 0, 0, 0⟩ ⟨0, 0, 1⟩ = ⟨0, 0, 0, 0⟩ := by
    simp only [Madgwick.step_IMU, hq, hF]
    norm_num [Q4.mk.injEq]
  refine ⟨by rw [hnv]; norm_num, hF, hStep, ?_⟩
  rw [hStep, nq_eq_zero_iff]
  norm_num

/-- C10: for every nonzero quaternion, the computed axis-angle angle is zero
exactly when the vector part is zero and the scalar part is positive — the
only inputs covered by the zero-axis fallback.  For (-1,0,0,0) the angle is
2 pi, not zero, while the norm of its vector part — the divisor used for the
axis — is zero, so the fallback guard does not cover this input and the axis
computation divides the zero vector by zero. -/
theorem c10_axang_guard :
    (∀ q : Q4, ¬ (q.w = 0 ∧ q.x = 0 ∧ q.y = 0 ∧ q.z = 0) →
      (Quaternion.to_axang_angle q = 0 ↔ (q.x = 0 ∧ q.y = 0 ∧ q.z = 0 ∧ 0 < q.w))) ∧
    Quaternion.to_axang_angle ⟨-1, 0, 0, 0⟩ = 2 * Real.pi ∧
    Quaternion.to_axang_angle ⟨-1, 0, 0, 0⟩ ≠ 0 ∧
    nv ⟨(0 : ℝ), 0, 0⟩ = 0 := by
  have heq : Quaternion.to_axang_angle ⟨-1, 0, 0, 0⟩ = 2 * Real.pi := by
    show 2 * Quaternion.atan2 (nv ⟨0, 0, 0⟩) (-1) = 2 * Real.pi
    rw [nv_triple_zero]
    unfold Quaternion.atan2
    rw [if_neg (by norm_num), if_pos (by norm_num : (-1 : ℝ) < 0), if_pos le_rfl,
      zero_div, Real.arctan_zero, zero_add]
  refine ⟨?_, heq, by rw [heq]; norm_num [Real.pi_ne_zero], nv_triple_zero⟩
  intro q hq
  have hD0 : 0 ≤ nv ⟨q.x, q.y, q.z⟩ := Real.sqrt_nonneg _
  unfold Quaternion.to_axang_angle
  constructor
  · intro h
    have h2 : Quaternion.atan2 (nv ⟨q.x, q.y, q.z⟩) q.w = 0 := by linarith
    by_cases hw : 0 < q.w
    · rw [Quaternion.atan2, if_pos hw] at h2
      have hdiv : nv ⟨q.x, q.y, q.z⟩ / q.w = 0 := Real.arctan_eq_zero_iff.mp h2
      have hD : nv ⟨q.x, q.y, q.z⟩ = 0 := by
        rcases div_eq_zero_iff.mp hdiv with h3 | h3
        · exact h3
        · exact absurd h3 (ne_of_gt hw)
      obtain ⟨hx, hy, hz⟩ := (nv_eq_zero_iff _).mp hD
      exact ⟨hx, hy, hz, hw⟩
    · by_cases hw2 : q.w < 0
      · rw [Quaternion.atan2, if_neg hw, if_pos hw2, if_pos hD0] at h2
        have hlt := Real.neg_pi_div_two_lt_arctan (nv ⟨q.x, q.y, q.z⟩ / q.w)
        have hpi := Real.pi_pos
        linarith
      · have hw0 : q.w = 0 := le_antisymm (not_lt.mp hw) (not_lt.mp hw2)
        rw [Quaternion.atan2, if_neg hw, if_neg hw2] at h2
        by_cases hD : 0 < nv ⟨q.x, q.y, q.z⟩
        · rw [if_pos hD] at h2
          have hpi := Real.pi_pos
          linarith
        · have hDz : nv ⟨q.x, q.y, q.z⟩ = 0 := le_antisymm (not_lt.mp hD) hD0
          obtain ⟨hx, hy, hz⟩ := (nv_eq_zero_iff _).mp hDz
          exact absurd ⟨hw0, hx, hy, hz⟩ hq
  · rintro ⟨hx, hy, hz, hw⟩
    have hD : nv ⟨q.x, q.y, q.z⟩ = 0 := by
      rw [nv_eq_zero_iff]
      exact ⟨hx, hy, hz⟩
    rw [hD, Quaternion.atan2, if_pos hw, zero_div, Real.arctan_zero, mul_zero]

/-- Witness for C10 at the identity quaternion: the angle is zero, obtained
from the main equivalence with its hypotheses discharged. -/
theorem c10_axang_guard_witness : Quaternion.to_axang_angle ⟨1, 0, 0, 0⟩ = 0 :=
  (c10_axang_guard.1 ⟨1, 0, 0, 0⟩ (by norm_num)).mpr (by norm_num)

lemma pyRound_int_add (N : ℤ) (x : ℚ) (h : Int.fract x ≠ 1 / 2) :
    WMM.pyRound ((N : ℚ) + x) = N + (if Int.fract x < 1 / 2 then ⌊x⌋ else ⌊x⌋ + 1) := by
  unfold WMM.pyRound
  rw [Int.fract_int_add, Int.floor_int_add]
  by_cases h1 : Int.fract x < 1 / 2
  · rw [if_pos h1, if_pos h1]
  · have h2 : 1 / 2 < Int.fract x := lt_of_le_of_ne (not_lt.mp h1) (Ne.symm h)
    rw [if_neg h1, if_pos h2, if_neg h1]
    ring

lemma set_date_year_spec (d : ℚ) (h : Int.fract ((d - (⌊d⌋ : ℚ)) * 365) ≠ 1 / 2) :
    WMM.set_date_year d =
      if (if Int.fract ((d - (⌊d⌋ : ℚ)) * 365) < 1 / 2
            then ⌊(d - (⌊d⌋ : ℚ)) * 365⌋
            else ⌊(d - (⌊d⌋ : ℚ)) * 365⌋ + 1) < WMM.daysInYear ⌊d⌋
      then ⌊d⌋ else ⌊d⌋ + 1 := by
  simp only [WMM.set_date_year]
  rw [pyRound_int_add _ _ h, add_sub_cancel_left]

/-- C8 counterexample: the decimal date 2014.999 precedes 2015, yet
`set_date` raises no error on it: the fractional part rounds to a 365-day
offset, which lands on January 1st of 2015 since 2014 has 365 days, so the
calendar-year check `self.date.year < 2015` fails to fire. -/
theorem c8_counterexample :
    ((2014 + 999 / 1000 : ℚ) < 2015) ∧
    WMM.set_date_raises (2014 + 999 / 1000) = false := by
  have hfl : ⌊(2014 + 999 / 1000 : ℚ)⌋ = 2014 := by
    rw [Int.floor_eq_iff]
    norm_num
  have hx : ((2014 + 999 / 1000 : ℚ) - (⌊(2014 + 999 / 1000 : ℚ)⌋ : ℚ)) * 365 = 72927 / 200 := by
    rw [hfl]
    norm_num
  have hflx : ⌊(72927 / 200 : ℚ)⌋ = 364 := by
    rw [Int.floor_eq_iff]
    norm_num
  have hfrx : Int.fract (72927 / 200 : ℚ) = 127 / 200 := by
    have h1 : Int.fract (72927 / 200 : ℚ) = 72927 / 200 - (⌊(72927 / 200 : ℚ)⌋ : ℚ) :=
      (Int.self_sub_floor _).symm
    rw [h1, hflx]
    norm_num
  have ht : Int.fract (((2014 + 999 / 1000 : ℚ) - (⌊(2014 + 999 / 1000 : ℚ)⌋ : ℚ)) * 365) ≠ 1 / 2 := by
    rw [hx, hfrx]
    norm_num
  have hdy : WMM.daysInYear 2014 = 365 := by decide
  refine ⟨by norm_num, ?_⟩
  simp only [WMM.set_date_raises]
  rw [set_date_year_spec _ ht, hx, hfrx, hflx, hfl, hdy]
  norm_num

/-- C8 amended: for a decimal-year input (away from exact rounding ties),
`set_date` raises its range error exactly when the derived calendar year
precedes 2015: always when the integer part of the date is below 2014, and
for dates inside 2014 exactly when the fractional part scaled to days stays
below 364.5 — dates closer to 2015 than half a day (such as 2014.999) round
into calendar year 2015 and raise no error, even though they precede the
2015.0 epoch; dates at or after 2015 never raise. -/
theorem c8_set_date_amended (d : ℚ) (h0 : 2000 ≤ d)
    (ht : Int.fract ((d - (⌊d⌋ : ℚ)) * 365) ≠ 1 / 2) :
    WMM.set_date_raises d = true ↔
      (⌊d⌋ < 2014 ∨ (⌊d⌋ = 2014 ∧ (d - 2014) * 365 < 729 / 2)) := by
  have hy : (2000 : ℤ) ≤ ⌊d⌋ := Int.le_floor.mpr (by exact_mod_cast h0)
  simp only [WMM.set_date_raises, decide_eq_true_eq]
  rw [set_date_year_spec d ht]
  set x : ℚ := (d - (⌊d⌋ : ℚ)) * 365 with hxdef
  have hfr : d - (⌊d⌋ : ℚ) = Int.fract d := Int.self_sub_floor d
  have hx0 : (0 : ℚ) ≤ x := by
    rw [hxdef, hfr]
    exact mul_nonneg (Int.fract_nonneg d) (by norm_num)
  have hx365 : x < 365 := by
    rw [hxdef, hfr]
    have h1 := Int.fract_lt_one d
    nlinarith [Int.fract_nonneg d]
  have hfl0 : 0 ≤ ⌊x⌋ := Int.floor_nonneg.mpr hx0
  have hfl364 : ⌊x⌋ ≤ 364 := by
    have h1 : ⌊x⌋ < 365 := Int.floor_lt.mpr (by exact_mod_cast hx365)
    omega
  have hfx : (⌊x⌋ : ℚ) + Int.fract x = x := Int.floor_add_fract x
  have hfx1 : Int.fract x < 1 := Int.fract_lt_one x
  rcases lt_trichotomy (⌊d⌋) 2014 with hlt | heq | hgt
  · constructor
    · intro _
      exact Or.inl hlt
    · intro _
      split_ifs <;> omega
  · have hdy : WMM.daysInYear 2014 = 365 := by decide
    have hx2014 : (d - 2014) * 365 = x := by
      rw [hxdef, heq]
      push_cast
      ring
    rw [heq, hdy, hx2014]
    by_cases hfr2 : Int.fract x < 1 / 2
    · rw [if_pos hfr2]
      have hb : ⌊x⌋ < (365 : ℤ) := by omega
      rw [if_pos hb]
      constructor
      · intro _
        refine Or.inr ⟨rfl, ?_⟩
        have h1 : (⌊x⌋ : ℚ) ≤ 364 := by exact_mod_cast hfl364
        linarith
      · intro _
        norm_num
    · have hfr3 : 1 / 2 < Int.fract x := lt_of_le_of_ne (not_lt.mp hfr2) (Ne.symm ht)
      rw [if_neg hfr2]
      by_cases hb : ⌊x⌋ ≤ 363
      · have hb2 : ⌊x⌋ + 1 < (365 : ℤ) := by omega
        rw [if_pos hb2]
        constructor
        · intro _
          refine Or.inr ⟨rfl, ?_⟩
          have h1 : (⌊x⌋ : ℚ) ≤ 363 := by exact_mod_cast hb
          linarith
        · intro _
          norm_num
      · have hb2 : ⌊x⌋ = 364 := by omega
        have hb3 : ¬ (⌊x⌋ + 1 < (365 : ℤ)) := by omega
        rw [if_neg hb3]
        constructor
        · intro hcon
          exact absurd hcon (by norm_num)
        · rintro (h | ⟨_, hlt2⟩)
          · exact absurd h (by norm_num)
          · exfalso
            have h1 : (⌊x⌋ : ℚ) = 364 := by exact_mod_cast hb2
            linarith
  · constructor
    · intro hcon
      exfalso
      revert hcon
      split_ifs <;> omega
    · rintro (h | ⟨h, _⟩) <;> omega

/-- Witness for C8 amended at the decimal date 2014.25: the hypotheses hold
and the equivalence yields that `set_date` raises on it. -/
theorem c8_set_date_amended_witness : WMM.set_date_raises (2014 + 1 / 4) = true := by
  have hfl : ⌊(2014 + 1 / 4 : ℚ)⌋ = 2014 := by
    rw [Int.floor_eq_iff]
    norm_num
  have hx : ((2014 + 1 / 4 : ℚ) - (⌊(2014 + 1 / 4 : ℚ)⌋ : ℚ)) * 365 = 365 / 4 := by
    rw [hfl]
    norm_num
  have hflx : ⌊(365 / 4 : ℚ)⌋ = 91 := by
    rw [Int.floor_eq_iff]
    norm_num
  have hfrx : Int.fract (365 / 4 : ℚ) = 1 / 4 := by
    have h1 : Int.fract (365 / 4 : ℚ) = 365 / 4 - (⌊(365 / 4 : ℚ)⌋ : ℚ) :=
      (Int.self_sub_floor _).symm
    rw [h1, hflx]
    norm_num
  have ht : Int.fract (((2014 + 1 / 4 : ℚ) - (⌊(2014 + 1 / 4 : ℚ)⌋ : ℚ)) * 365) ≠ 1 / 2 := by
    rw [hx, hfrx]
    norm_num
  exact (c8_set_date_amended (2014 + 1 / 4) (by norm_num) ht).mpr
    (Or.inr ⟨hfl, by norm_num⟩)

end Ahrs
